/-
  Verification of the content-tree modeling, validation and metadata-derivation
  engine of the github-repository-content-processor repository.

  The TypeScript sources are shallowly embedded: each class method that the
  checked properties mention is translated into an executable Lean function
  over explicit data (strings are `String`, thrown exceptions are `Except`,
  JavaScript's stable `Array.prototype.sort` is a stable insertion sort).
-/
import Mathlib

set_option maxRecDepth 4000

/-! ## Character classes and decimal digits

`FractionalIndex`, `Slug` and the validators classify characters with the
regexes `\d`, `[a-z]`, `[a-z0-9-]`; we model them on `Char.toNat`. -/

def charIsDigit (c : Char) : Bool := 48 ≤ c.toNat && c.toNat ≤ 57

def charIsLower (c : Char) : Bool := 97 ≤ c.toNat && c.toNat ≤ 122

/-- Characters allowed in a slug name by the regex `[a-z0-9-]`. -/
def charIsNameChar (c : Char) : Bool := charIsLower c || charIsDigit c || c = '-'

/-- One decimal digit as a character (callers always pass `d < 10`). -/
def digitChar (d : Nat) : Char :=
  match d with
  | 0 => '0' | 1 => '1' | 2 => '2' | 3 => '3' | 4 => '4'
  | 5 => '5' | 6 => '6' | 7 => '7' | 8 => '8' | 9 => '9'
  | _ => '0'

def charToDigit (c : Char) : Nat := c.toNat - 48

/-- Little-endian decimal digits, with structural fuel (any fuel above
the number of digits gives the same answer). -/
def natDigitsRevAux : Nat → Nat → List Char
  | 0, _ => []
  | fuel + 1, n =>
    if n < 10 then [digitChar n]
    else digitChar (n % 10) :: natDigitsRevAux fuel (n / 10)

/-- Little-endian decimal digits of a natural number. -/
def natDigitsRev (n : Nat) : List Char := natDigitsRevAux (n + 1) n

/-- Decimal rendering of a natural number, as JavaScript template-string
interpolation of a non-negative integer produces it. -/
def natToChars (n : Nat) : List Char := (natDigitsRev n).reverse

/-- `parseInt(s, 10)` on a string of decimal digits. -/
def digitsToNat (l : List Char) : Nat :=
  l.foldl (fun acc c => acc * 10 + charToDigit c) 0

/-! ## `localeCompare` on lowercase ASCII

`String.prototype.localeCompare` on strings made of the characters the
domain admits (lowercase letters, digits, hyphens) orders by code point;
we model it as a three-valued lexicographic comparison. -/

def lexCmp : List Char → List Char → Int
  | [], [] => 0
  | [], _ :: _ => -1
  | _ :: _, [] => 1
  | a :: l, b :: m =>
    if a.toNat < b.toNat then -1
    else if b.toNat < a.toNat then 1
    else lexCmp l m

/-! ## FractionalIndex (src/unnamed/part_006)

`<number><letters>`, letters mandatory.  `FractionalIndex.compare` compares
numbers, then letter counts (more letters = smaller), then letters
lexicographically. -/

structure FractionalIndex where
  number : Nat
  letters : String
deriving DecidableEq

/-- `FractionalIndex.compare` from src/unnamed/part_006 lines 73-86. -/
def FractionalIndex.compare (left right : FractionalIndex) : Int :=
  if left.number ≠ right.number then
    (left.number : Int) - (right.number : Int)
  else if left.letters.length ≠ right.letters.length then
    (right.letters.length : Int) - (left.letters.length : Int)
  else
    lexCmp left.letters.data right.letters.data

/-- The private-constructor invariant of `FractionalIndex`: letters are a
non-empty run of lowercase `a-z`. -/
def FractionalIndex.Wf (f : FractionalIndex) : Prop :=
  f.letters.data ≠ [] ∧ ∀ c ∈ f.letters.data, charIsLower c = true

instance (f : FractionalIndex) : Decidable f.Wf := by
  unfold FractionalIndex.Wf; infer_instance

/-- `FractionalIndex.full`: the string `${number}${letters}`. -/
def FractionalIndex.full (f : FractionalIndex) : List Char :=
  natToChars f.number ++ f.letters.data

/-! ### Order lemmas for `lexCmp` -/

/-! ### Properties of `FractionalIndex.compare` -/

/-! ## Decimal round-trip facts -/

/-! ## takeWhile / dropWhile splitting -/

/-! ## Slug (src/src/validations/domain/Slug.ts)

A slug is `<fractional-index>-<name>`.  `Slug.parse` applies the anchored
regex `^(\d+[a-z]+)-([a-z0-9-]+)$` and feeds the first group to
`FractionalIndex.parse` (regex `^(\d+)([a-z]+)$`); for the character
classes involved the two regexes deterministically split the input into
the maximal run of leading digits, the maximal following run of lowercase
letters, a literal hyphen, and a non-empty remainder of name characters. -/

structure Slug where
  fractionalIndex : FractionalIndex
  name : String
deriving DecidableEq

/-- The constructor invariants enforced by the private constructors of
`Slug` and `FractionalIndex` (non-empty lowercase letters, non-empty name
of lowercase letters, digits and hyphens). -/
def Slug.Wf (s : Slug) : Prop :=
  s.fractionalIndex.Wf ∧ s.name.data ≠ [] ∧
    ∀ c ∈ s.name.data, charIsNameChar c = true

instance (s : Slug) : Decidable s.Wf := by
  unfold Slug.Wf; infer_instance

/-- `Slug.full`: the string `${fractionalIndex.full}-${name}`. -/
def Slug.full (s : Slug) : List Char :=
  s.fractionalIndex.full ++ '-' :: s.name.data

/-- `Slug.parse`: `null` (here `none`) models the thrown
`Invalid slug format` error. -/
def Slug.parse (l : List Char) : Option Slug :=
  let ds := l.takeWhile charIsDigit
  let r1 := l.dropWhile charIsDigit
  let ls := r1.takeWhile charIsLower
  let r2 := r1.dropWhile charIsLower
  match r2 with
  | '-' :: nm =>
    if ds ≠ [] ∧ ls ≠ [] ∧ nm ≠ [] ∧ ∀ c ∈ nm, charIsNameChar c = true then
      some ⟨⟨digitsToNat ds, String.mk ls⟩, String.mk nm⟩
    else none
  | _ => none

/-- `Slug.compare`: fractional indices first, then names via
`localeCompare`. -/
def Slug.compare (left right : Slug) : Int :=
  let indexComparison :=
    FractionalIndex.compare left.fractionalIndex right.fractionalIndex
  if indexComparison ≠ 0 then indexComparison
  else lexCmp left.name.data right.name.data

/-! ## Metadata records and builders (src/src/types, DomainServices.ts)

`BaseMetadataBuilder.build` spreads the typed frontmatter, the locale, the
slug array and the git metadata into one record; the four concrete builders
(article / chapter / directory / locale) all inherit this body unchanged. -/

structure GitMetadata where
  created_at : String
  updated_at : String
  sha : String
  size : Nat
deriving DecidableEq

structure FrontMatter where
  id : String
  title : String
  description : Option String
  cover_url : Option String
  type : String
  aliases : Option (List String)
deriving DecidableEq

structure Metadata where
  id : String
  title : String
  description : Option String
  cover_url : Option String
  type : String
  aliases : Option (List String)
  locale : String
  slug : List String
  created_at : String
  updated_at : String
  sha : String
  size : Nat
deriving DecidableEq

/-- `BaseMetadataBuilder.build` (DomainServices.ts lines 88-104). -/
def buildMetadata (frontmatter : FrontMatter) (gitMetadata : GitMetadata)
    (locale : String) (slug : List String) : Metadata :=
  { id := frontmatter.id
    title := frontmatter.title
    description := frontmatter.description
    cover_url := frontmatter.cover_url
    type := frontmatter.type
    aliases := frontmatter.aliases
    locale := locale
    slug := slug
    created_at := gitMetadata.created_at
    updated_at := gitMetadata.updated_at
    sha := gitMetadata.sha
    size := gitMetadata.size }

/-- A child entry of a full index: article and nested-chapter entries are
bare metadata, directory entries carry their own (recursively built)
children array. -/
inductive ChildMeta where
  | bare (m : Metadata)
  | full (m : Metadata) (children : List ChildMeta)

def ChildMeta.meta : ChildMeta → Metadata
  | .bare m => m
  | .full m _ => m

/-! ## The sorter (DomainServices.ts lines 72-83)

`Array.prototype.sort` with a comparator is a stable sort; we model it as
a stable insertion sort driven by an integer comparator. -/

def insertCmp {α : Type} (cmp : α → α → Int) (x : α) : List α → List α
  | [] => [x]
  | y :: l => if cmp x y < 0 then x :: y :: l else y :: insertCmp cmp x l

def sortByCmp {α : Type} (cmp : α → α → Int) (l : List α) : List α :=
  l.foldl (fun acc x => insertCmp cmp x acc) []

/-- The metadata records produced by `BaseMetadataBuilder.build` consist of
the typed frontmatter fields (`id`, `title`, `description`, `cover_url`,
`type`, `aliases`), `locale`, `slug` and the git fields (`created_at`,
`updated_at`, `sha`, `size`).  No field is named `fractionalIndex`, so the
guard `'fractionalIndex' in a && typeof a.fractionalIndex === 'string'`
inside `FractionalIndexSorter.sort` is false for every item and both
comparator operands fall back to the empty string. -/
def childFractionalIndexField (_c : ChildMeta) : String := ""

/-- Comparator of `FractionalIndexSorter.sort` (DomainServices.ts 77-80):
`indexA.localeCompare(indexB)` on the fallback values. -/
def fractionalIndexSorterCmp (a b : ChildMeta) : Int :=
  lexCmp (childFractionalIndexField a).data (childFractionalIndexField b).data

/-- `FractionalIndexSorter.sort` (DomainServices.ts lines 75-83). -/
def FractionalIndexSorter.sort (items : List ChildMeta) : List ChildMeta :=
  sortByCmp fractionalIndexSorterCmp items

/-! ## Scanned-content model and the metadata generator (src/unnamed/part_003) -/

structure ScannedFile where
  relativePath : String
  frontmatter : FrontMatter
  gitMetadata : GitMetadata
deriving DecidableEq

structure ScannedFolder where
  name : String
  indexFile : Option ScannedFile
  articles : List ScannedFile
  subfolders : List ScannedFolder

/-- `path.basename(p)`: the component after the last `/`. -/
def lastPathComponent (l : List Char) : List Char :=
  l.foldl (fun acc c => if c = '/' then [] else acc ++ [c]) []

/-- `path.basename(p, '.md')`: basename with a trailing `.md` removed. -/
def basenameMd (p : String) : String :=
  let base := lastPathComponent p.data
  if base.reverse.take 3 = ['d', 'm', '.'] then
    String.mk (base.reverse.drop 3).reverse
  else String.mk base

/-- `MetadataGeneratorService.buildArticleMetadata` (part_003 318-332). -/
def buildArticleMetadata (article : ScannedFile) (locale : String)
    (parentSlug : List String) : Metadata :=
  buildMetadata article.frontmatter article.gitMetadata locale
    (parentSlug ++ [basenameMd article.relativePath])

/-- `MetadataGeneratorService.buildDirectoryChildren` (part_003 269-313):
articles with `article` frontmatter, then subfolders in order; a subfolder
without an index file is skipped, a chapter-typed subfolder is logged and
skipped, every other indexed subfolder becomes a directory entry with
recursively built, sorter-sorted children. -/
def buildDirectoryChildren (folder : ScannedFolder) (locale : String)
    (parentSlug : List String) : List ChildMeta :=
  ((folder.articles.filter (fun a => a.frontmatter.type = "article")).map
    (fun a => ChildMeta.bare (buildArticleMetadata a locale parentSlug)))
  ++ (folder.subfolders.attach.map (fun sf =>
      match sf.1.indexFile with
      | none => ([] : List ChildMeta)
      | some f =>
        if f.frontmatter.type = "chapter" then []
        else
          [ChildMeta.full
            (buildMetadata f.frontmatter f.gitMetadata locale
              (parentSlug ++ [sf.1.name]))
            (FractionalIndexSorter.sort
              (buildDirectoryChildren sf.1 locale (parentSlug ++ [sf.1.name])))])).flatten
termination_by sizeOf folder
decreasing_by
  have hmem := List.sizeOf_lt_of_mem sf.2
  cases folder
  simp only [ScannedFolder.subfolders] at hmem
  simp_wf
  omega

/-- `MetadataGeneratorService.buildChapterChildren` (part_003 213-264):
all articles, then indexed subfolders; nested chapters contribute bare
metadata, directories contribute a full entry, any other type is skipped. -/
def buildChapterChildren (folder : ScannedFolder) (locale : String)
    (parentSlug : List String) : List ChildMeta :=
  (folder.articles.map
    (fun a => ChildMeta.bare (buildArticleMetadata a locale parentSlug)))
  ++ (folder.subfolders.map (fun subfolder =>
      match subfolder.indexFile with
      | none => ([] : List ChildMeta)
      | some f =>
        if f.frontmatter.type = "chapter" then
          [ChildMeta.bare
            (buildMetadata f.frontmatter f.gitMetadata locale
              (parentSlug ++ [subfolder.name]))]
        else if f.frontmatter.type = "directory" then
          [ChildMeta.full
            (buildMetadata f.frontmatter f.gitMetadata locale
              (parentSlug ++ [subfolder.name]))
            (FractionalIndexSorter.sort
              (buildDirectoryChildren subfolder locale
                (parentSlug ++ [subfolder.name])))]
        else [])).flatten

/-- The per-folder artifact computation of
`MetadataGeneratorService.generateFolderIndices` (part_003 337-396): for an
indexed folder, the shallow metadata and the full metadata (shallow fields
plus sorter-sorted children) that are written to `index.shallow.json` and
`index.full.json`. -/
def generateFolderArtifacts (folder : ScannedFolder) (locale : String)
    (parentSlug : List String) : Option (Metadata × Metadata × List ChildMeta) :=
  match folder.indexFile with
  | none => none
  | some f =>
    let folderSlug := parentSlug ++ [folder.name]
    let children :=
      if f.frontmatter.type = "chapter" then
        buildChapterChildren folder locale folderSlug
      else buildDirectoryChildren folder locale folderSlug
    let shallowMetadata := buildMetadata f.frontmatter f.gitMetadata locale folderSlug
    some (shallowMetadata, shallowMetadata, FractionalIndexSorter.sort children)

/-! ## Incremental update engine (src/src/services/IncrementalMetadataUpdaterService.ts) -/

/-- The full index stored in an `index.full.json` file: the folder's own
metadata fields plus its children array. -/
structure FullIndex where
  meta : Metadata
  children : List ChildMeta

/-- `child.slug[child.slug.length - 1]` (undefined on an empty array). -/
def lastSlugSegment (c : ChildMeta) : Option String :=
  c.meta.slug.getLast?

/-- The children update of
`IncrementalMetadataUpdaterService.updateArticleMetadata` for an added or
modified article (lines 390-412): replace the child whose last slug
segment matches the article name, or append the fresh article metadata,
then apply `FractionalIndexSorter.sort`.  The same computation is applied
to the full and to the shallow children array. -/
def updateArticleChildren (children : List ChildMeta) (articleName : String)
    (articleMetadata : Metadata) : List ChildMeta :=
  let replaced :=
    match children.findIdx? (fun c => lastSlugSegment c = some articleName) with
    | some i => children.set i (ChildMeta.bare articleMetadata)
    | none => children ++ [ChildMeta.bare articleMetadata]
  FractionalIndexSorter.sort replaced

/-- The article-removal branch of `updateArticleMetadata` (lines 364-371). -/
def removeArticleChildren (children : List ChildMeta) (articleName : String) :
    List ChildMeta :=
  children.filter (fun c => lastSlugSegment c ≠ some articleName)

/-- The non-removal core of
`IncrementalMetadataUpdaterService.updateFolderMetadata` (lines 288-329):
rebuild the folder metadata from the freshly loaded `index.md` frontmatter
and git metadata (keeping the slug recorded in the existing shallow file),
write it as the new shallow index, and write the full index with the same
fresh header but the previously stored children array.  `none` models the
early `removed` return (folder removal is unimplemented). -/
def updateFolderMetadata (status : String) (oldFull : FullIndex)
    (oldShallow : Metadata) (frontmatter : FrontMatter) (git : GitMetadata)
    (locale : String) : Option (Metadata × FullIndex) :=
  if status = "removed" then none
  else
    let updatedMetadata :=
      if frontmatter.type = "chapter" then
        buildMetadata frontmatter git locale oldShallow.slug
      else
        buildMetadata frontmatter git locale oldShallow.slug
    some (updatedMetadata, { meta := updatedMetadata, children := oldFull.children })

/-! ## Ancestor builder (src/src/services/AncestorBuilder.ts)

The builder issues one file load for the locale's `locale.md` and one for
the `index.md` of every prefix of the slug path; we abstract those reads
as an environment. -/

structure AncestorEnv where
  localeFile : Option (FrontMatter × GitMetadata)
  folderFile : List String → Option (FrontMatter × GitMetadata)

/-- `slugPath.slice(0, index + 1)` for each index: the non-empty prefixes
of the slug path, shortest first. -/
def slugPathInits (slugPath : List String) : List (List String) :=
  (List.range slugPath.length).map (fun i => slugPath.take (i + 1))

/-- `AncestorBuilder.buildLocaleAncestor` (lines 50-72): `none` when the
locale file is unreadable, a thrown error when its frontmatter is not
locale-typed. -/
def buildLocaleAncestor (localeName : String) (env : AncestorEnv) :
    Except String (Option Metadata) :=
  match env.localeFile with
  | none => .ok none
  | some (fm, git) =>
    if fm.type ≠ "locale" then
      .error ("Expected locale frontmatter but got " ++ fm.type)
    else .ok (some (buildMetadata fm git localeName []))

/-- `AncestorBuilder.buildFolderAncestors` (lines 77-134): for every prefix
of the slug path, in order, push the chapter or directory metadata built
from that prefix's `index.md`; unreadable index files and frontmatter of
any other type are skipped. -/
def buildFolderAncestors (localeName : String) (slugPath : List String)
    (env : AncestorEnv) : List Metadata :=
  (slugPathInits slugPath).foldl
    (fun acc p =>
      match env.folderFile p with
      | none => acc
      | some (fm, git) =>
        if fm.type = "chapter" then acc ++ [buildMetadata fm git localeName p]
        else if fm.type = "directory" then
          acc ++ [buildMetadata fm git localeName p]
        else acc)
    []

/-- `AncestorBuilder.buildAncestors` (lines 28-45): the locale ancestor (if
loadable) followed by the folder ancestors of the given slug path.
`generateFolderIndices` calls this with the folder's parent slug path, so
the chain stops at the immediate parent. -/
def buildAncestors (localeName : String) (slugPath : List String)
    (env : AncestorEnv) : Except String (List Metadata) :=
  match buildLocaleAncestor localeName env with
  | .error e => .error e
  | .ok localeAncestor =>
    let start := match localeAncestor with
      | some m => [m]
      | none => []
    .ok (start ++ buildFolderAncestors localeName slugPath env)

/-! ## Validation engine (src/src/validations)

Runtime frontmatter values reaching the validators are raw YAML values;
the checks only distinguish "absent", "a string" and "some other truthy or
falsy value", which we model with strings and numbers. -/

inductive FmValue where
  | absent
  | str (s : String)
  | num (n : Int)
deriving DecidableEq

/-- JavaScript truthiness of the modelled values (`undefined`, `""` and
`0` are falsy). -/
def FmValue.truthy : FmValue → Bool
  | .absent => false
  | .str s => decide (s ≠ "")
  | .num n => decide (n ≠ 0)

def FmValue.isString : FmValue → Bool
  | .str _ => true
  | _ => false

def intToString (n : Int) : String :=
  if n < 0 then String.mk ('-' :: natToChars n.natAbs)
  else String.mk (natToChars n.natAbs)

/-- JavaScript string coercion, as template-literal interpolation and
`ULID.isValid`'s regex test apply it. -/
def FmValue.coerceToString : FmValue → String
  | .absent => "undefined"
  | .str s => s
  | .num n => intToString n

structure RawFrontMatter where
  type : FmValue
  title : FmValue
  description : FmValue
  id : FmValue
deriving DecidableEq

inductive ElementType where
  | locale
  | chapter
  | directory
  | article
deriving DecidableEq

def ElementType.str : ElementType → String
  | .locale => "locale"
  | .chapter => "chapter"
  | .directory => "directory"
  | .article => "article"

def charIsUpper (c : Char) : Bool := 65 ≤ c.toNat && c.toNat ≤ 90

/-- `ContentPath.isValidLocale`: the regex `^[a-z]{2}-[A-Z]{2}$`. -/
def isValidLocale (s : String) : Bool :=
  match s.data with
  | [a, b, h, c, d] =>
    charIsLower a && charIsLower b && h = '-' && charIsUpper c && charIsUpper d
  | _ => false

/-- `ContentPath`: a locale code plus parsed slug segments. -/
structure CPath where
  locale : String
  segments : List Slug
deriving DecidableEq

def joinSlash (l : List String) : String := String.intercalate "/" l

/-- `ContentPath.path`: `[locale, ...segments.map(s => s.full)]`. -/
def CPath.pathList (p : CPath) : List String :=
  p.locale :: p.segments.map (fun s => String.mk s.full)

def CPath.pathString (p : CPath) : String := joinSlash p.pathList

/-- `ContentPath.getParent`. -/
def CPath.getParent (p : CPath) : Option CPath :=
  if p.segments = [] then none else some ⟨p.locale, p.segments.dropLast⟩

/-- A repository element as the validators see it: its structural kind
(the class of the object), its raw frontmatter, its content path, and its
children. -/
inductive Element where
  | mk (etype : ElementType) (frontmatter : RawFrontMatter) (path : CPath)
      (children : List Element)

def Element.etype : Element → ElementType
  | .mk t _ _ _ => t

def Element.frontmatter : Element → RawFrontMatter
  | .mk _ fm _ _ => fm

def Element.path : Element → CPath
  | .mk _ _ p _ => p

def Element.children : Element → List Element
  | .mk _ _ _ cs => cs

/-- `ValidationError` (src/src/validations/core/types.ts). -/
structure VError where
  message : String
  path : String
  line : Nat
  column : Nat
  offset : Nat
  severity : String
  code : String
  title : Option String
  suggestion : Option String
deriving DecidableEq

/-! ### Element self-validation (LocaleElement / ChapterElement /
DirectoryElement / ArticleElement `validate`) -/

def elemTypeError (expected : String) (got : FmValue) (path : CPath) : VError :=
  { message := "Invalid type for " ++ expected ++ ". Expected \"" ++ expected
      ++ "\", got \"" ++ got.coerceToString ++ "\""
    path := path.pathString
    line := 1, column := 1, offset := 0
    severity := "error"
    code := "INVALID_TYPE"
    title := some "Invalid Element Type"
    suggestion := none }

def directoryContainsChapterError (path : CPath) : VError :=
  { message := "Directory cannot contain chapters"
    path := path.pathString
    line := 1, column := 1, offset := 0
    severity := "error"
    code := "DIRECTORY_CONTAINS_CHAPTER"
    title := some "Invalid Hierarchy"
    suggestion := some "Change parent type to \"chapter\" or remove chapter children" }

def invalidLocaleFormatError (path : CPath) : VError :=
  { message := "Invalid locale format: " ++ path.locale
      ++ ". Expected format: xx-XX (e.g., en-US)"
    path := path.pathString
    line := 1, column := 1, offset := 0
    severity := "error"
    code := "INVALID_LOCALE_FORMAT"
    title := some "Invalid Locale Format"
    suggestion := none }

def articleTypeError (got : FmValue) (path : CPath) : VError :=
  { message := "Invalid type for article. Expected \"article\" or undefined, got \""
      ++ got.coerceToString ++ "\""
    path := path.pathString
    line := 1, column := 1, offset := 0
    severity := "error"
    code := "INVALID_TYPE"
    title := some "Invalid Element Type"
    suggestion := some "Remove type field or set it to \"article\"" }

/-- The recursive `validate()` generators of the four element classes:
each yields its own diagnostics and then delegates to its children. -/
def Element.validate (e : Element) : List VError :=
  match e with
  | .mk .locale fm path children =>
    (if fm.type ≠ .str "locale" then [elemTypeError "locale" fm.type path] else [])
    ++ (if ¬ isValidLocale path.locale then [invalidLocaleFormatError path] else [])
    ++ (children.attach.map (fun c => c.1.validate)).flatten
  | .mk .chapter fm path children =>
    (if fm.type ≠ .str "chapter" then [elemTypeError "chapter" fm.type path] else [])
    ++ (children.attach.map (fun c => c.1.validate)).flatten
  | .mk .directory fm path children =>
    (if fm.type ≠ .str "directory" then [elemTypeError "directory" fm.type path] else [])
    ++ (if children.any (fun c => c.etype = .chapter) then
          [directoryContainsChapterError path] else [])
    ++ (children.attach.map (fun c => c.1.validate)).flatten
  | .mk .article fm path _ =>
    if fm.type.truthy && fm.type ≠ .str "article" then
      [articleTypeError fm.type path]
    else []
termination_by sizeOf e
decreasing_by
  all_goals
    have hmem := List.sizeOf_lt_of_mem c.2
    simp only [Element.mk.sizeOf_spec]
    omega

/-! ### FrontmatterValidator (src/unnamed/part_008 lines 197-370) -/

def fmCreateError (code message : String) (pathList : List String) : VError :=
  { message := message
    path := joinSlash pathList
    line := 1, column := 1, offset := 0
    severity := "error"
    code := code
    title := none
    suggestion := none }

/-- `!frontmatter.title || typeof frontmatter.title !== "string"`. -/
def titleBad (fm : RawFrontMatter) : Bool :=
  !(fm.title.truthy && fm.title.isString)

/-- `frontmatter.description && typeof frontmatter.description !== "string"`. -/
def descBad (fm : RawFrontMatter) : Bool :=
  fm.description.truthy && !fm.description.isString

/-- `FrontmatterValidator.validateLocale` (lines 218-263): note that the
title check and the description check each appear twice in the source. -/
def validateLocaleFm (fm : RawFrontMatter) (pathList : List String) : List VError :=
  (if fm.type ≠ .str "locale" then
    [fmCreateError "INVALID_FRONTMATTER_TYPE"
      ("Locale must have type=\"locale\", got \"" ++ fm.type.coerceToString ++ "\"")
      pathList]
   else [])
  ++ (if titleBad fm then
      [fmCreateError "MISSING_REQUIRED_FIELD" "Locale must have a title" pathList]
     else [])
  ++ (if descBad fm then
      [fmCreateError "INVALID_FIELD_TYPE" "Locale description must be a string" pathList]
     else [])
  ++ (if titleBad fm then
      [fmCreateError "MISSING_REQUIRED_FIELD" "Locale must have a title" pathList]
     else [])
  ++ (if descBad fm then
      [fmCreateError "INVALID_FIELD_TYPE" "Locale description must be a string" pathList]
     else [])

def validateChapterFm (fm : RawFrontMatter) (pathList : List String) : List VError :=
  (if fm.type ≠ .str "chapter" then
    [fmCreateError "INVALID_FRONTMATTER_TYPE"
      ("Chapter must have type=\"chapter\", got \"" ++ fm.type.coerceToString ++ "\"")
      pathList]
   else [])
  ++ (if titleBad fm then
      [fmCreateError "MISSING_REQUIRED_FIELD" "Chapter must have a title" pathList]
     else [])
  ++ (if descBad fm then
      [fmCreateError "INVALID_FIELD_TYPE" "Chapter description must be a string" pathList]
     else [])

def validateDirectoryFm (fm : RawFrontMatter) (pathList : List String) : List VError :=
  (if fm.type ≠ .str "directory" then
    [fmCreateError "INVALID_FRONTMATTER_TYPE"
      ("Directory must have type=\"directory\", got \"" ++ fm.type.coerceToString ++ "\"")
      pathList]
   else [])
  ++ (if titleBad fm then
      [fmCreateError "MISSING_REQUIRED_FIELD" "Directory must have a title" pathList]
     else [])
  ++ (if descBad fm then
      [fmCreateError "INVALID_FIELD_TYPE" "Directory description must be a string" pathList]
     else [])

/-- `FrontmatterValidator.validateArticle` (lines 323-359): the description
check appears twice in the source. -/
def validateArticleFm (fm : RawFrontMatter) (pathList : List String) : List VError :=
  (if fm.type.truthy && fm.type ≠ .str "article" then
    [fmCreateError "INVALID_FRONTMATTER_TYPE"
      ("Article type must be \"article\" if specified, got \"" ++ fm.type.coerceToString ++ "\"")
      pathList]
   else [])
  ++ (if titleBad fm then
      [fmCreateError "MISSING_REQUIRED_FIELD" "Article must have a title" pathList]
     else [])
  ++ (if descBad fm then
      [fmCreateError "INVALID_FIELD_TYPE" "Article description must be a string" pathList]
     else [])
  ++ (if descBad fm then
      [fmCreateError "INVALID_FIELD_TYPE" "Article description must be a string" pathList]
     else [])

/-- `FrontmatterValidator.validate`: dispatch on the element's class. -/
def frontmatterValidate (e : Element) : List VError :=
  match e.etype with
  | .locale => validateLocaleFm e.frontmatter e.path.pathList
  | .chapter => validateChapterFm e.frontmatter e.path.pathList
  | .directory => validateDirectoryFm e.frontmatter e.path.pathList
  | .article => validateArticleFm e.frontmatter e.path.pathList

def frontmatterValidateBatch (elements : List Element) : List VError :=
  (elements.map frontmatterValidate).flatten

/-! ### FileNameValidator (src/src/validations/core/Validator.ts bundle) -/

def invalidFileNameError (message : String) (pathStr : String) : VError :=
  { message := message
    path := pathStr
    line := 0, column := 0, offset := 0
    severity := "error"
    code := "INVALID_FILE_NAME"
    title := none
    suggestion := none }

/-- `FILENAME_PATTERN = /^(\d+)([a-z]+)-([a-z0-9-]+)$/`: on success the
three capture groups. -/
def fileNamePatternMatch (l : List Char) :
    Option (List Char × List Char × List Char) :=
  let ds := l.takeWhile charIsDigit
  let r1 := l.dropWhile charIsDigit
  let ls := r1.takeWhile charIsLower
  let r2 := r1.dropWhile charIsLower
  match r2 with
  | '-' :: nm =>
    if ds ≠ [] ∧ ls ≠ [] ∧ nm ≠ [] ∧ ∀ c ∈ nm, charIsNameChar c = true then
      some (ds, ls, nm)
    else none
  | _ => none

def hasDoubleHyphen : List Char → Bool
  | '-' :: '-' :: _ => true
  | _ :: rest => hasDoubleHyphen rest
  | [] => false

def fileNameValidateSegment (fullSlug : List Char) (pathStr : String) : List VError :=
  match fileNamePatternMatch fullSlug with
  | none =>
    [invalidFileNameError
      ("Invalid filename format: \"" ++ String.mk fullSlug
        ++ "\". Expected format: <number><letters>-<name> (e.g., 1a-intro, 2b-advanced). Letters are mandatory.")
      pathStr]
  | some (_, letters, nm) =>
    (if letters = [] then
      [invalidFileNameError
        ("Fractional index must include letters: \"" ++ String.mk fullSlug
          ++ "\". Letters are mandatory (e.g., 1a, 2b, 10aa).")
        pathStr]
     else [])
    ++ (if nm ≠ [] ∧ ¬ (∀ c ∈ nm, charIsNameChar c = true) then
        [invalidFileNameError
          ("Slug name contains invalid characters: \"" ++ String.mk nm
            ++ "\". Only lowercase letters, digits, and hyphens are allowed.")
          pathStr]
       else [])
    ++ (if nm ≠ [] ∧ (nm.head? = some '-' ∨ nm.getLast? = some '-') then
        [invalidFileNameError
          ("Slug name cannot start or end with hyphen: \"" ++ String.mk nm ++ "\"")
          pathStr]
       else [])
    ++ (if nm ≠ [] ∧ hasDoubleHyphen nm then
        [invalidFileNameError
          ("Slug name cannot contain consecutive hyphens: \"" ++ String.mk nm ++ "\"")
          pathStr]
       else [])

/-- `FileNameValidator.validate`: locale format, then every segment
against the filename pattern; the diagnostic path for segment `i` is
`path.path.slice(0, i + 1).join("/")`. -/
def fileNameValidate (e : Element) : List VError :=
  (if ¬ isValidLocale e.path.locale then
    [invalidFileNameError
      ("Invalid locale format: \"" ++ e.path.locale
        ++ "\". Expected format: xx-XX (e.g., en-US, uk-UA)")
      e.path.pathString]
   else [])
  ++ (e.path.segments.enum.map (fun pr =>
      fileNameValidateSegment pr.2.full (joinSlash (e.path.pathList.take (pr.1 + 1))))).flatten

def fileNameValidateBatch (elements : List Element) : List VError :=
  (elements.map fileNameValidate).flatten

/-! ### HierarchyValidator (src/unnamed/part_008 lines 19-128)

`HierarchyValidator.validateBatch` assigns `super.validateBatch(elements)`
(the per-element pass) to a local and returns it as the *generator return
value*, which the pipeline's `errors.push(...)` spread discards; only the
relational parent/child checks are actually emitted. -/

def hierErr (message pathStr : String) : VError :=
  { message := message
    path := pathStr
    line := 0, column := 0, offset := 0
    severity := "error"
    code := "INVALID_HIERARCHY"
    title := none
    suggestion := none }

/-- The `Map.set`-built element map: on key collision the last element in
iteration order wins. -/
def elementMapGet (elements : List Element) (key : String) : Option Element :=
  (elements.filter (fun e => e.path.pathString = key)).getLast?

def hierarchyValidateBatch (elements : List Element) : List VError :=
  (elements.map (fun e =>
    match e.path.getParent with
    | none => []
    | some parentPath =>
      match elementMapGet elements (joinSlash parentPath.pathList) with
      | none => []
      | some parent =>
        (if parent.etype = .directory ∧ e.etype = .chapter then
          [hierErr ("Chapter cannot be placed under Directory. Path: " ++ e.path.pathString)
            e.path.pathString]
         else [])
        ++ (if parent.etype = .article then
            [hierErr ("Article cannot contain children. Path: " ++ e.path.pathString)
              (joinSlash parentPath.pathList)]
           else [])
        ++ (if parent.etype = .locale ∧ e.etype ≠ .chapter then
            [hierErr ("Locale can only contain Chapters. Found " ++ e.etype.str
                ++ " at " ++ e.path.pathString)
              e.path.pathString]
           else []))).flatten

/-! ### DuplicateIdValidator (src/unnamed/part_008 lines 137-184)

`element.id` is `ULID.from(frontmatter.id)`, whose constructor throws on
any value that does not pass the 26-character base32 regex; the thrown
error is modelled with `Except`. -/

/-- The regex `[0-9A-HJKMNP-TV-Z]`. -/
def isBase32Char (c : Char) : Bool :=
  charIsDigit c || (65 ≤ c.toNat && c.toNat ≤ 72)
    || c = 'J' || c = 'K' || c = 'M' || c = 'N'
    || (80 ≤ c.toNat && c.toNat ≤ 84) || (86 ≤ c.toNat && c.toNat ≤ 90)

/-- `ULID.isValid` (src/src/validations/domain/ULID.ts line 44). -/
def ulidIsValid (s : String) : Bool :=
  s.data.length = 26 && s.data.all isBase32Char

/-- `ULID.from` / the `ULID` constructor (ULID.ts lines 14-37), applied to
the raw frontmatter `id` that `RepositoryElement.id` reads. -/
def ulidFrom (v : FmValue) : Except String String :=
  let value := v.coerceToString
  if ulidIsValid value then .ok value
  else .error ("Invalid ULID format: \"" ++ value ++ "\". Expected 26 base32 characters")

/-- Insertion-ordered `Map<string, string[]>`: `idMap.get(id).push(path)`
with `idMap.set(id, [])` on first sight. -/
def insertIdPath (m : List (String × List String)) (id path : String) :
    List (String × List String) :=
  match m with
  | [] => [(id, [path])]
  | (k, ps) :: rest =>
    if k = id then (k, ps ++ [path]) :: rest
    else (k, ps) :: insertIdPath rest id path

/-- The id-collection loop of `DuplicateIdValidator.validateBatch`
(lines 157-166). -/
def collectIdMap : List Element → List (String × List String) →
    Except String (List (String × List String))
  | [], m => .ok m
  | e :: rest, m =>
    match ulidFrom e.frontmatter.id with
    | .error err => .error err
    | .ok id => collectIdMap rest (insertIdPath m id e.path.pathString)

def dupMessage (id : String) (paths : List String) : String :=
  "Duplicate ID \"" ++ id ++ "\" found at multiple paths: "
    ++ String.intercalate ", " paths

def mkDupError (id : String) (paths : List String) (path : String) : VError :=
  { message := dupMessage id paths
    path := path
    line := 1, column := 1, offset := 0
    severity := "error"
    code := "DUPLICATE_ID"
    title := none
    suggestion := none }

/-- `DuplicateIdValidator.validateBatch` (lines 154-183). -/
def DuplicateIdValidator.validateBatch (elements : List Element) :
    Except String (List VError) :=
  match collectIdMap elements [] with
  | .error err => .error err
  | .ok idMap =>
    .ok (idMap.foldl
      (fun acc entry =>
        if entry.2.length > 1 then acc ++ entry.2.map (mkDupError entry.1 entry.2)
        else acc)
      [])

/-! ### ValidationPipeline (src/src/validations/validators/ValidationPipeline.ts)

Default options: all four validators enabled, `maxErrors = 0` (no cap).
The validators run in order and their diagnostics are concatenated; an
exception thrown by any of them propagates out of `validateBatch`. -/

def ValidationPipeline.validateBatch (elements : List Element) :
    Except String (List VError) :=
  let frontmatterErrors := frontmatterValidateBatch elements
  let fileNameErrors := fileNameValidateBatch elements
  let hierarchyErrors := hierarchyValidateBatch elements
  match DuplicateIdValidator.validateBatch elements with
  | .error err => .error err
  | .ok duplicateIdErrors =>
    .ok (frontmatterErrors ++ fileNameErrors ++ hierarchyErrors ++ duplicateIdErrors)

/-! ### Analysis-side helpers for stating the duplicate-id property -/

/-- The (coerced) identifier of an element, as the duplicate scan keys it. -/
def idOf (e : Element) : String := e.frontmatter.id.coerceToString

/-- First occurrences of each value, in order of first appearance. -/
def keepFirst (l : List String) : List String :=
  l.foldl (fun acc x => if x ∈ acc then acc else acc ++ [x]) []

/-- The paths of all elements carrying the given identifier, in batch
order. -/
def pathsOf (elements : List Element) (id : String) : List String :=
  (elements.filter (fun e => idOf e = id)).map (fun e => e.path.pathString)

/-! ## Concrete fixtures used by the counterexamples and witnesses -/

def gitX : GitMetadata :=
  { created_at := "2024-01-02T03:04:05+00:00"
    updated_at := "2024-02-03T04:05:06+00:00"
    sha := "0123abcd"
    size := 42 }

def articleFm (id title : String) : FrontMatter :=
  { id := id, title := title, description := none, cover_url := none
    type := "article", aliases := none }

def chapterFm (id title : String) : FrontMatter :=
  { id := id, title := title, description := none, cover_url := none
    type := "chapter", aliases := none }

def directoryFm (id title : String) : FrontMatter :=
  { id := id, title := title, description := none, cover_url := none
    type := "directory", aliases := none }

def localeFm (id title : String) : FrontMatter :=
  { id := id, title := title, description := none, cover_url := none
    type := "locale", aliases := none }

def art3az : ScannedFile :=
  { relativePath := "en-US/2a-guides/3a-z.md"
    frontmatter := articleFm "ART3" "Z article"
    gitMetadata := gitX }

def art1ax : ScannedFile :=
  { relativePath := "en-US/2a-guides/1a-x.md"
    frontmatter := articleFm "ART1" "X article"
    gitMetadata := gitX }

/-- A scanned directory folder whose articles arrive in the scan order
`3a-z.md`, `1a-x.md`. -/
def c2Folder : ScannedFolder :=
  { name := "2a-guides"
    indexFile := some
      { relativePath := "en-US/2a-guides/index.md"
        frontmatter := directoryFm "DIR1" "Guides"
        gitMetadata := gitX }
    articles := [art3az, art1ax]
    subfolders := [] }

def meta1ax : Metadata :=
  buildMetadata (articleFm "ART1" "X article") gitX "en-US" ["2a-guides", "1a-x"]

def meta3az : Metadata :=
  buildMetadata (articleFm "ART3" "Z article") gitX "en-US" ["2a-guides", "3a-z"]

def meta2b : Metadata :=
  buildMetadata (articleFm "ART2" "Advanced") gitX "en-US" ["2a-guides", "2b-advanced"]

/-- Environment for the ancestor-builder witness: locale `en-US` holding
chapter `1a-csharp`, inside which folder `1a-basics` lives. -/
def c4Env : AncestorEnv :=
  { localeFile := some (localeFm "LOC1" "English", gitX)
    folderFile := fun p =>
      if p = ["1a-csharp"] then some (chapterFm "CH01" "CSharp", gitX) else none }

/-- A scanned subfolder whose index file declares a chapter (the case
`buildDirectoryChildren` logs and skips). -/
def isChapterIndexed (sf : ScannedFolder) : Bool :=
  match sf.indexFile with
  | some f => f.frontmatter.type = "chapter"
  | none => false

/-- The contribution of one subfolder inside
`buildDirectoryChildren`'s subfolder loop. -/
def dirChildEntry (sf : ScannedFolder) (locale : String)
    (parentSlug : List String) : List ChildMeta :=
  match sf.indexFile with
  | none => []
  | some f =>
    if f.frontmatter.type = "chapter" then []
    else
      [ChildMeta.full
        (buildMetadata f.frontmatter f.gitMetadata locale
          (parentSlug ++ [sf.name]))
        (FractionalIndexSorter.sort
          (buildDirectoryChildren sf locale (parentSlug ++ [sf.name])))]

/-! Fixtures for the directory-contains-chapter scenario. -/

def dirRawFm : RawFrontMatter :=
  { type := .str "directory", title := .str "Guides"
    description := .absent, id := .str "01ARZ3NDEKTSV4RRFFQ69G5FAV" }

def chapterRawFm : RawFrontMatter :=
  { type := .str "chapter", title := .str "Chapter"
    description := .absent, id := .str "01BX5ZZKBKACTAV9WEVGEMMVRZ" }

def c5Path : CPath := ⟨"en-US", [⟨⟨2, "a"⟩, "guides"⟩]⟩

def c5ChildPath : CPath := ⟨"en-US", [⟨⟨2, "a"⟩, "guides"⟩, ⟨⟨1, "a"⟩, "intro"⟩]⟩

/-- A directory element that (illegally) holds a chapter child. -/
def c5DirElement : Element :=
  .mk .directory dirRawFm c5Path [.mk .chapter chapterRawFm c5ChildPath []]

/-- A scanned directory folder holding one chapter subfolder and one
article. -/
def c5Folder : ScannedFolder :=
  { name := "2a-guides"
    indexFile := some
      { relativePath := "en-US/2a-guides/index.md"
        frontmatter := directoryFm "DIR1" "Guides"
        gitMetadata := gitX }
    articles := [art1ax]
    subfolders :=
      [{ name := "1a-chap"
         indexFile := some
           { relativePath := "en-US/2a-guides/1a-chap/index.md"
             frontmatter := chapterFm "CH02" "Nested chapter"
             gitMetadata := gitX }
         articles := []
         subfolders := [] }] }

/-! Fixtures for the duplicate-identifier and pipeline-totality claims. -/

def e1dup : Element :=
  .mk .locale
    { type := .str "locale", title := .str "English"
      description := .absent, id := .str "01ARZ3NDEKTSV4RRFFQ69G5FAV" }
    ⟨"en-US", []⟩ []

def e2dup : Element :=
  .mk .article
    { type := .str "article", title := .str "Intro"
      description := .absent, id := .str "01ARZ3NDEKTSV4RRFFQ69G5FAV" }
    ⟨"uk-UA", [⟨⟨1, "a"⟩, "intro"⟩, ⟨⟨2, "b"⟩, "deep"⟩]⟩ []

def e3uniq : Element :=
  .mk .chapter chapterRawFm ⟨"en-US", [⟨⟨1, "a"⟩, "chap"⟩]⟩ []

/-- An element whose frontmatter id is not a valid ULID. -/
def badIdElement : Element :=
  .mk .article
    { type := .str "article", title := .str "T"
      description := .absent, id := .str "not-a-ulid" }
    ⟨"en-US", [⟨⟨1, "a"⟩, "intro"⟩]⟩ []

/-- The diagnostics the duplicate-id scan produces on a batch of valid
identifiers: per identifier in first-occurrence order, one diagnostic per
occurrence when duplicated, none otherwise. -/
def dupDiagnostics (elements : List Element) : List VError :=
  ((keepFirst (elements.map idOf)).map
    (fun κ =>
      if (pathsOf elements κ).length > 1 then
        (pathsOf elements κ).map (mkDupError κ (pathsOf elements κ))
      else [])).flatten

/-! # Theorems -/

theorem lexCmp_swap (l m : List Char) : lexCmp l m = - lexCmp m l := by
  induction l generalizing m with
  | nil => cases m <;> simp [lexCmp]
  | cons a l ih =>
    cases m with
    | nil => simp [lexCmp]
    | cons b m =>
      by_cases h1 : a.toNat < b.toNat
      · have h2 : ¬ b.toNat < a.toNat := by omega
        simp [lexCmp, h1, h2]
      · by_cases h2 : b.toNat < a.toNat
        · simp [lexCmp, h1, h2]
        · simp [lexCmp, h1, h2, ih m]

theorem lexCmp_eq_zero_iff (l m : List Char) : lexCmp l m = 0 ↔ l = m := by
  induction l generalizing m with
  | nil => cases m <;> simp [lexCmp]
  | cons a l ih =>
    cases m with
    | nil => simp [lexCmp]
    | cons b m =>
      by_cases h1 : a.toNat < b.toNat
      · simp only [lexCmp, if_pos h1]
        constructor
        · intro h; omega
        · rintro ⟨rfl, rfl⟩; omega
      · by_cases h2 : b.toNat < a.toNat
        · simp only [lexCmp, if_neg h1, if_pos h2]
          constructor
          · intro h; omega
          · rintro ⟨rfl, rfl⟩; omega
        · have hval : a.toNat = b.toNat := by omega
          have hab : a = b :=
            Char.eq_of_val_eq (UInt32.eq_of_val_eq (Fin.eq_of_val_eq hval))
          simp [lexCmp, h1, h2, ih m, hab]

theorem lexCmp_trans {l m k : List Char}
    (h1 : lexCmp l m < 0) (h2 : lexCmp m k < 0) : lexCmp l k < 0 := by
  induction l generalizing m k with
  | nil =>
    cases m with
    | nil => simp [lexCmp] at h1
    | cons b m =>
      cases k with
      | nil => simp [lexCmp] at h2
      | cons c k => simp [lexCmp]
  | cons a l ih =>
    cases m with
    | nil => simp [lexCmp] at h1
    | cons b m =>
      cases k with
      | nil => simp [lexCmp] at h2
      | cons c k =>
        by_cases hab1 : a.toNat < b.toNat
        · by_cases hbc1 : b.toNat < c.toNat
          · have : a.toNat < c.toNat := by omega
            simp [lexCmp, this]
          · by_cases hbc2 : c.toNat < b.toNat
            · simp only [lexCmp, if_neg hbc1, if_pos hbc2] at h2; omega
            · have hbc : b.toNat = c.toNat := by omega
              have : a.toNat < c.toNat := by omega
              simp [lexCmp, this]
        · by_cases hab2 : b.toNat < a.toNat
          · simp only [lexCmp, if_neg hab1, if_pos hab2] at h1; omega
          · have hab : a.toNat = b.toNat := by omega
            simp only [lexCmp, if_neg hab1, if_neg hab2] at h1
            by_cases hbc1 : b.toNat < c.toNat
            · have : a.toNat < c.toNat := by omega
              simp [lexCmp, this]
            · by_cases hbc2 : c.toNat < b.toNat
              · simp only [lexCmp, if_neg hbc1, if_pos hbc2] at h2; omega
              · simp only [lexCmp, if_neg hbc1, if_neg hbc2] at h2
                have h3 : ¬ a.toNat < c.toNat := by omega
                have h4 : ¬ c.toNat < a.toNat := by omega
                simp only [lexCmp, if_neg h3, if_neg h4]
                exact ih h1 h2

theorem fracCompare_swap (a b : FractionalIndex) :
    FractionalIndex.compare a b = - FractionalIndex.compare b a := by
  unfold FractionalIndex.compare
  split_ifs <;>
    first
      | omega
      | (exact lexCmp_swap a.letters.data b.letters.data)

theorem fracCompare_eq_zero (a b : FractionalIndex)
    (h : FractionalIndex.compare a b = 0) : a = b := by
  unfold FractionalIndex.compare at h
  split_ifs at h with h1 h2
  · exfalso; omega
  · exfalso; omega
  · have hdata : a.letters.data = b.letters.data := (lexCmp_eq_zero_iff _ _).mp h
    have hstr : a.letters = b.letters := String.ext hdata
    have hnum : a.number = b.number := by omega
    cases a; cases b
    simp_all

theorem fracCompare_trans (a b c : FractionalIndex)
    (h1 : FractionalIndex.compare a b < 0)
    (h2 : FractionalIndex.compare b c < 0) :
    FractionalIndex.compare a c < 0 := by
  unfold FractionalIndex.compare at h1 h2 ⊢
  have hlen : a.letters.length = a.letters.data.length := rfl
  split_ifs at h1 h2 ⊢ <;>
    first
      | omega
      | (exact lexCmp_trans h1 h2)

/-- C1: the fractional-index comparison orders keys by integer part, then by
"more letters sorts first", then lexicographically; it is antisymmetric
(swapping the arguments negates the result, and a zero comparison forces
equality) and transitive, and `1aa` sorts before `1a` before `1b` before
`2a`. -/
theorem C1_fractionalIndex_compare_total_order :
    (∀ a b : FractionalIndex,
        (a.number < b.number → FractionalIndex.compare a b < 0) ∧
        (a.number = b.number → b.letters.length < a.letters.length →
          FractionalIndex.compare a b < 0) ∧
        (a.number = b.number → a.letters.length = b.letters.length →
          FractionalIndex.compare a b = lexCmp a.letters.data b.letters.data)) ∧
    (∀ a b : FractionalIndex,
        FractionalIndex.compare a b = - FractionalIndex.compare b a) ∧
    (∀ a b : FractionalIndex, FractionalIndex.compare a b = 0 → a = b) ∧
    (∀ a b c : FractionalIndex,
        FractionalIndex.compare a b < 0 → FractionalIndex.compare b c < 0 →
        FractionalIndex.compare a c < 0) ∧
    FractionalIndex.compare ⟨1, "aa"⟩ ⟨1, "a"⟩ < 0 ∧
    FractionalIndex.compare ⟨1, "a"⟩ ⟨1, "b"⟩ < 0 ∧
    FractionalIndex.compare ⟨1, "b"⟩ ⟨2, "a"⟩ < 0 := by
  refine ⟨?_, fracCompare_swap, fracCompare_eq_zero, fracCompare_trans, ?_, ?_, ?_⟩
  · intro a b
    refine ⟨?_, ?_, ?_⟩
    · intro h
      unfold FractionalIndex.compare
      split_ifs <;> omega
    · intro h hl
      unfold FractionalIndex.compare
      split_ifs <;> omega
    · intro h hl
      unfold FractionalIndex.compare
      split_ifs <;> first | rfl | omega
  · decide
  · decide
  · decide

theorem digitChar_lt_ten_spec (d : Nat) (h : d < 10) :
    charToDigit (digitChar d) = d ∧ charIsDigit (digitChar d) = true := by
  interval_cases d <;> simp [digitChar, charToDigit, charIsDigit]

theorem natDigitsRevAux_ne_nil (fuel n : Nat) (h : n < fuel) :
    natDigitsRevAux fuel n ≠ [] := by
  cases fuel with
  | zero => omega
  | succ f =>
    unfold natDigitsRevAux
    split <;> simp

theorem natDigitsRev_ne_nil (n : Nat) : natDigitsRev n ≠ [] :=
  natDigitsRevAux_ne_nil (n + 1) n (by omega)

theorem natDigitsRevAux_digits (fuel : Nat) :
    ∀ n, n < fuel → ∀ c ∈ natDigitsRevAux fuel n, charIsDigit c = true := by
  induction fuel with
  | zero => omega
  | succ f ih =>
    intro n hn c hc
    unfold natDigitsRevAux at hc
    by_cases h10 : n < 10
    · rw [if_pos h10] at hc
      simp only [List.mem_singleton] at hc
      subst hc
      exact (digitChar_lt_ten_spec n (by omega)).2
    · rw [if_neg h10] at hc
      simp only [List.mem_cons] at hc
      rcases hc with rfl | hc
      · exact (digitChar_lt_ten_spec (n % 10) (by omega)).2
      · have : n / 10 < f := by omega
        exact ih (n / 10) this c hc

theorem natDigitsRev_digits (n : Nat) :
    ∀ c ∈ natDigitsRev n, charIsDigit c = true :=
  natDigitsRevAux_digits (n + 1) n (by omega)

theorem digitsToNat_append (l : List Char) (c : Char) :
    digitsToNat (l ++ [c]) = digitsToNat l * 10 + charToDigit c := by
  simp [digitsToNat, List.foldl_append]

theorem digitsToNat_natDigitsRevAux (fuel : Nat) :
    ∀ n, n < fuel → digitsToNat (natDigitsRevAux fuel n).reverse = n := by
  induction fuel with
  | zero => omega
  | succ f ih =>
    intro n hn
    unfold natDigitsRevAux
    by_cases h10 : n < 10
    · rw [if_pos h10]
      simp [digitsToNat, (digitChar_lt_ten_spec n (by omega)).1]
    · rw [if_neg h10, List.reverse_cons, digitsToNat_append]
      have hdiv : n / 10 < f := by omega
      rw [ih (n / 10) hdiv, (digitChar_lt_ten_spec (n % 10) (by omega)).1]
      omega

theorem digitsToNat_natToChars (n : Nat) : digitsToNat (natToChars n) = n :=
  digitsToNat_natDigitsRevAux (n + 1) n (by omega)

theorem takeWhile_split (p : Char → Bool) (l1 : List Char) (c : Char)
    (l2 : List Char) (h1 : ∀ x ∈ l1, p x = true) (h2 : p c = false) :
    (l1 ++ c :: l2).takeWhile p = l1 ∧ (l1 ++ c :: l2).dropWhile p = c :: l2 := by
  induction l1 with
  | nil => simp [List.takeWhile, List.dropWhile, h2]
  | cons a l ih =>
    have ha : p a = true := h1 a (by simp)
    have := ih (fun x hx => h1 x (by simp [hx]))
    simp [List.takeWhile, List.dropWhile, ha, this.1, this.2]

theorem charIsLower_not_digit (c : Char) (h : charIsLower c = true) :
    charIsDigit c = false := by
  simp only [charIsLower, Bool.and_eq_true, decide_eq_true_eq] at h
  have hgt : ¬ (c.toNat ≤ 57) := by omega
  simp [charIsDigit, hgt]

theorem hyphen_not_lower : charIsLower '-' = false := by decide

theorem natToChars_ne_nil (n : Nat) : natToChars n ≠ [] := by
  unfold natToChars
  simp [natDigitsRev_ne_nil n]

theorem Slug.parse_append (n : Nat) (ls nm : List Char)
    (hls : ls ≠ []) (hlow : ∀ c ∈ ls, charIsLower c = true)
    (hnm : nm ≠ []) (hname : ∀ c ∈ nm, charIsNameChar c = true) :
    Slug.parse (natToChars n ++ ls ++ '-' :: nm) =
      some ⟨⟨n, String.mk ls⟩, String.mk nm⟩ := by
  cases ls with
  | nil => exact absurd rfl hls
  | cons lc lrest =>
    have hdigits : ∀ x ∈ natToChars n, charIsDigit x = true := by
      intro x hx
      exact natDigitsRev_digits n x (List.mem_reverse.mp hx)
    have hlc : charIsDigit lc = false :=
      charIsLower_not_digit lc (hlow lc (by simp))
    have hsplit1 :=
      takeWhile_split charIsDigit (natToChars n) lc (lrest ++ '-' :: nm)
        hdigits hlc
    have hsplit2 := takeWhile_split charIsLower (lc :: lrest) '-' nm hlow
      hyphen_not_lower
    have heq : natToChars n ++ (lc :: lrest) ++ '-' :: nm
        = natToChars n ++ lc :: (lrest ++ '-' :: nm) := by simp
    have heq2 : lc :: (lrest ++ '-' :: nm) = (lc :: lrest) ++ '-' :: nm := by
      simp
    unfold Slug.parse
    rw [heq]
    simp only [hsplit1.1, hsplit1.2]
    rw [heq2]
    simp only [hsplit2.1, hsplit2.2]
    have hcond : natToChars n ≠ [] ∧ (lc :: lrest) ≠ [] ∧ nm ≠ [] ∧
        ∀ c ∈ nm, charIsNameChar c = true :=
      ⟨natToChars_ne_nil n, by simp, hnm, hname⟩
    rw [if_pos hcond, digitsToNat_natToChars]

/-- C9: for every valid slug (fractional index plus a non-empty name of
lowercase letters, digits and hyphens), parsing the slug's string
representation returns a slug equal to the original. -/
theorem C9_slug_parse_toString_roundtrip (s : Slug) (h : s.Wf) :
    Slug.parse (Slug.full s) = some s := by
  obtain ⟨⟨n, letters⟩, nm⟩ := s
  obtain ⟨⟨hne, hlow⟩, hnne, hname⟩ := h
  exact Slug.parse_append n letters.data nm.data hne hlow hnne hname

/-- Witness for C9 at the concrete slug `10aa-my-2nd-name`, whose name
contains both hyphens and a digit. -/
theorem C9_witness :
    Slug.Wf ⟨⟨10, "aa"⟩, "my-2nd-name"⟩ ∧
      Slug.parse (Slug.full ⟨⟨10, "aa"⟩, "my-2nd-name"⟩) =
        some ⟨⟨10, "aa"⟩, "my-2nd-name"⟩ :=
  ⟨by decide, C9_slug_parse_toString_roundtrip ⟨⟨10, "aa"⟩, "my-2nd-name"⟩ (by decide)⟩


/-! ## The sorter used by derivation and incremental update is a no-op -/

theorem insertCmp_sorterCmp (x : ChildMeta) (l : List ChildMeta) :
    insertCmp fractionalIndexSorterCmp x l = l ++ [x] := by
  induction l with
  | nil => rfl
  | cons y l ih =>
    simp [insertCmp, fractionalIndexSorterCmp, childFractionalIndexField, lexCmp, ih]

/-- `FractionalIndexSorter.sort` never reorders anything: its comparator
reads a `fractionalIndex` property that no metadata record carries, so
every comparison is `"".localeCompare("") = 0` and the stable sort
returns the array unchanged. -/
theorem fractionalIndexSorter_sort_eq_id (items : List ChildMeta) :
    FractionalIndexSorter.sort items = items := by
  have hins : (fun (a : List ChildMeta) (x : ChildMeta) =>
      insertCmp fractionalIndexSorterCmp x a) = fun a x => a ++ [x] := by
    funext a x
    exact insertCmp_sorterCmp x a
  have hfold : ∀ (l acc : List ChildMeta),
      l.foldl (fun a x => a ++ [x]) acc = acc ++ l := by
    intro l
    induction l with
    | nil => simp
    | cons x l ih =>
      intro acc
      simp [ih]
  simp [FractionalIndexSorter.sort, sortByCmp, hins, hfold]

theorem basenameMd_3az : basenameMd "en-US/2a-guides/3a-z.md" = "3a-z" := by decide

theorem basenameMd_1ax : basenameMd "en-US/2a-guides/1a-x.md" = "1a-x" := by decide

/-- C2 (the code violates it): for the directory folder `2a-guides` whose
articles are scanned in the order `3a-z.md`, `1a-x.md`, the children array
written to `index.full.json` stays in scan order `[3a-z, 1a-x]` even
though the fractional-index rule orders `1a-x` strictly before `3a-z`
(`Slug.compare` of the parsed last segments is positive). -/
theorem C2_full_children_not_fractionally_sorted :
    generateFolderArtifacts c2Folder "en-US" [] =
      some (buildMetadata (directoryFm "DIR1" "Guides") gitX "en-US" ["2a-guides"],
        buildMetadata (directoryFm "DIR1" "Guides") gitX "en-US" ["2a-guides"],
        [ChildMeta.bare meta3az, ChildMeta.bare meta1ax])
    ∧ Slug.parse "3a-z".data = some ⟨⟨3, "a"⟩, "z"⟩
    ∧ Slug.parse "1a-x".data = some ⟨⟨1, "a"⟩, "x"⟩
    ∧ 0 < Slug.compare ⟨⟨3, "a"⟩, "z"⟩ ⟨⟨1, "a"⟩, "x"⟩ := by
  refine ⟨?_, by decide, by decide, by decide⟩
  have h0 : generateFolderArtifacts c2Folder "en-US" [] =
      some (buildMetadata (directoryFm "DIR1" "Guides") gitX "en-US" ["2a-guides"],
        buildMetadata (directoryFm "DIR1" "Guides") gitX "en-US" ["2a-guides"],
        FractionalIndexSorter.sort
          (buildDirectoryChildren c2Folder "en-US" ["2a-guides"])) := rfl
  rw [h0, fractionalIndexSorter_sort_eq_id]
  unfold buildDirectoryChildren
  rfl

/-- C3 (the code violates it): adding article `2b-advanced.md` to a folder
whose full index lists `[1a-x, 3a-z]` appends the fresh entry at the end,
`[1a-x, 3a-z, 2b-advanced]`; the promised re-sort never happens (the
sorter is a no-op), so the result differs from the claimed
`[1a-x, 2b-advanced, 3a-z]`. -/
theorem C3_incremental_add_appended_not_resorted :
    updateArticleChildren [ChildMeta.bare meta1ax, ChildMeta.bare meta3az]
        "2b-advanced" meta2b
      = [ChildMeta.bare meta1ax, ChildMeta.bare meta3az, ChildMeta.bare meta2b]
    ∧ updateArticleChildren [ChildMeta.bare meta1ax, ChildMeta.bare meta3az]
        "2b-advanced" meta2b
      ≠ [ChildMeta.bare meta1ax, ChildMeta.bare meta2b, ChildMeta.bare meta3az] := by
  have h1 : updateArticleChildren [ChildMeta.bare meta1ax, ChildMeta.bare meta3az]
      "2b-advanced" meta2b
      = [ChildMeta.bare meta1ax, ChildMeta.bare meta3az, ChildMeta.bare meta2b] := rfl
  refine ⟨h1, ?_⟩
  rw [h1]
  intro h
  simp only [List.cons.injEq, ChildMeta.bare.injEq] at h
  exact absurd h.2.1 (by decide)

/-- C8: on an added or modified `index.md`, the folder update writes a
shallow index rebuilt from the fresh frontmatter and git metadata (with
the slug kept from the stored shallow index) and a full index with that
same fresh header and the previously stored children array unchanged. -/
theorem C8_folder_update_preserves_children (status : String) (oldFull : FullIndex)
    (oldShallow : Metadata) (fm : FrontMatter) (git : GitMetadata) (locale : String)
    (h : status ≠ "removed") :
    updateFolderMetadata status oldFull oldShallow fm git locale =
      some (buildMetadata fm git locale oldShallow.slug,
        { meta := buildMetadata fm git locale oldShallow.slug
          children := oldFull.children }) := by
  unfold updateFolderMetadata
  rw [if_neg h]
  by_cases ht : fm.type = "chapter" <;> simp [ht]

/-- Witness for C8: a modified chapter `index.md` with stored children
`[1a-x]`. -/
theorem C8_witness :
    updateFolderMetadata "modified"
        { meta := meta3az, children := [ChildMeta.bare meta1ax] }
        meta3az (chapterFm "CH01" "Fresh") gitX "en-US" =
      some (buildMetadata (chapterFm "CH01" "Fresh") gitX "en-US" meta3az.slug,
        { meta := buildMetadata (chapterFm "CH01" "Fresh") gitX "en-US" meta3az.slug
          children := [ChildMeta.bare meta1ax] }) :=
  C8_folder_update_preserves_children "modified"
    { meta := meta3az, children := [ChildMeta.bare meta1ax] }
    meta3az (chapterFm "CH01" "Fresh") gitX "en-US" (by decide)

/-! ## Ancestor chains -/

theorem buildFolderAncestors_fold (localeName : String) (env : AncestorEnv)
    (F : List String → FrontMatter) (G : List String → GitMetadata) :
    ∀ (ps : List (List String)) (acc : List Metadata),
      (∀ p ∈ ps, env.folderFile p = some (F p, G p) ∧
        ((F p).type = "chapter" ∨ (F p).type = "directory")) →
      ps.foldl
        (fun acc p =>
          match env.folderFile p with
          | none => acc
          | some (fm, git) =>
            if fm.type = "chapter" then acc ++ [buildMetadata fm git localeName p]
            else if fm.type = "directory" then
              acc ++ [buildMetadata fm git localeName p]
            else acc)
        acc
      = acc ++ ps.map (fun p => buildMetadata (F p) (G p) localeName p) := by
  intro ps
  induction ps with
  | nil => intro acc h; simp
  | cons p ps ih =>
    intro acc h
    obtain ⟨hfile, htype⟩ := h p (by simp)
    have hrest : ∀ q ∈ ps, env.folderFile q = some (F q, G q) ∧
        ((F q).type = "chapter" ∨ (F q).type = "directory") :=
      fun q hq => h q (by simp [hq])
    rw [List.foldl_cons]
    have hstep : (match env.folderFile p with
        | none => acc
        | some (fm, git) =>
          if fm.type = "chapter" then acc ++ [buildMetadata fm git localeName p]
          else if fm.type = "directory" then acc ++ [buildMetadata fm git localeName p]
          else acc) = acc ++ [buildMetadata (F p) (G p) localeName p] := by
      rw [hfile]
      rcases htype with hc | hd
      · simp [hc]
      · by_cases hc : (F p).type = "chapter"
        · simp [hc]
        · simp [hc, hd]
    rw [hstep, ih (acc ++ [buildMetadata (F p) (G p) localeName p]) hrest]
    simp

/-- C4: for a folder at depth ≥ 2 whose locale file and whose path-prefix
index files all load with the expected frontmatter kinds, the generated
ancestors list is exactly the locale's bare metadata followed by the bare
metadata of each slug-path prefix (shortest first, i.e. from the locale
down to the immediate parent), and no entry carries the folder's own
slug. -/
theorem C4_ancestors_locale_then_prefixes (localeName nm : String)
    (parentSlug : List String) (env : AncestorEnv)
    (lfm : FrontMatter) (lgit : GitMetadata)
    (F : List String → FrontMatter) (G : List String → GitMetadata)
    (_hdepth : parentSlug ≠ [])
    (hloc : env.localeFile = some (lfm, lgit))
    (hltype : lfm.type = "locale")
    (hf : ∀ p ∈ slugPathInits parentSlug,
        env.folderFile p = some (F p, G p) ∧
        ((F p).type = "chapter" ∨ (F p).type = "directory")) :
    buildAncestors localeName parentSlug env =
      .ok (buildMetadata lfm lgit localeName []
        :: (slugPathInits parentSlug).map
            (fun p => buildMetadata (F p) (G p) localeName p))
    ∧ ∀ m ∈ buildMetadata lfm lgit localeName []
        :: (slugPathInits parentSlug).map
            (fun p => buildMetadata (F p) (G p) localeName p),
        m.slug ≠ parentSlug ++ [nm] := by
  constructor
  · unfold buildAncestors buildLocaleAncestor
    rw [hloc]
    have hnot : ¬ lfm.type ≠ "locale" := by simp [hltype]
    simp only [hnot, ite_false, if_neg, if_false]
    unfold buildFolderAncestors
    rw [buildFolderAncestors_fold localeName env F G (slugPathInits parentSlug) [] hf]
    rfl
  · intro m hm
    have hlen : m.slug.length ≤ parentSlug.length := by
      rcases List.mem_cons.mp hm with hm0 | hmm
      · subst hm0
        simp [buildMetadata]
      · obtain ⟨p, hp, hpm⟩ := List.mem_map.mp hmm
        obtain ⟨i, hi, hpi⟩ := List.mem_map.mp hp
        subst hpm
        simp only [buildMetadata]
        subst hpi
        simp
    intro heq
    have : m.slug.length = parentSlug.length + 1 := by
      rw [heq]
      simp
    omega

/-- Witness for C4: the folder `1a-csharp/1a-basics` in locale `en-US`;
its ancestors file is exactly the locale metadata followed by the
`1a-csharp` chapter metadata, and neither entry has the folder's slug. -/
theorem C4_witness :
    buildAncestors "en-US" ["1a-csharp"] c4Env =
      .ok [buildMetadata (localeFm "LOC1" "English") gitX "en-US" [],
        buildMetadata (chapterFm "CH01" "CSharp") gitX "en-US" ["1a-csharp"]]
    ∧ ∀ m ∈ [buildMetadata (localeFm "LOC1" "English") gitX "en-US" [],
        buildMetadata (chapterFm "CH01" "CSharp") gitX "en-US" ["1a-csharp"]],
        m.slug ≠ ["1a-csharp", "1a-basics"] := by
  have h := C4_ancestors_locale_then_prefixes "en-US" "1a-basics" ["1a-csharp"]
    c4Env (localeFm "LOC1" "English") gitX
    (fun _ => chapterFm "CH01" "CSharp") (fun _ => gitX)
    (by decide) rfl rfl
    (by
      intro p hp
      simp only [slugPathInits, List.range, List.map] at hp
      have hp1 : p = ["1a-csharp"] := by
        simpa [List.range_succ] using hp
      subst hp1
      exact ⟨rfl, Or.inl rfl⟩)
  exact ⟨h.1, by simpa [slugPathInits, List.range_succ] using h.2⟩

/-! ## Directory-contains-chapter handling -/

theorem buildDirectoryChildren_via_entries (folder : ScannedFolder)
    (locale : String) (parentSlug : List String) :
    buildDirectoryChildren folder locale parentSlug =
      ((folder.articles.filter (fun a => a.frontmatter.type = "article")).map
        (fun a => ChildMeta.bare (buildArticleMetadata a locale parentSlug)))
      ++ (folder.subfolders.map (fun sf => dirChildEntry sf locale parentSlug)).flatten := by
  rw [buildDirectoryChildren]
  congr 1
  congr 1
  have : (fun (sf : { x // x ∈ folder.subfolders }) =>
      match sf.1.indexFile with
      | none => ([] : List ChildMeta)
      | some f =>
        if f.frontmatter.type = "chapter" then []
        else
          [ChildMeta.full
            (buildMetadata f.frontmatter f.gitMetadata locale
              (parentSlug ++ [sf.1.name]))
            (FractionalIndexSorter.sort
              (buildDirectoryChildren sf.1 locale (parentSlug ++ [sf.1.name])))])
      = fun (sf : { x // x ∈ folder.subfolders }) =>
          dirChildEntry sf.1 locale parentSlug := by
    funext sf
    rfl
  rw [this]
  simp

theorem dirChildEntry_of_chapter (sf : ScannedFolder) (locale : String)
    (parentSlug : List String) (h : isChapterIndexed sf = true) :
    dirChildEntry sf locale parentSlug = [] := by
  unfold dirChildEntry
  unfold isChapterIndexed at h
  cases hix : sf.indexFile with
  | none => rfl
  | some f =>
    rw [hix] at h
    simp only [decide_eq_true_eq] at h
    simp [h]

theorem buildDirectoryChildren_skips_chapters (folder : ScannedFolder)
    (locale : String) (parentSlug : List String) :
    buildDirectoryChildren
      { folder with subfolders :=
          folder.subfolders.filter (fun sf => !isChapterIndexed sf) }
      locale parentSlug
    = buildDirectoryChildren folder locale parentSlug := by
  rw [buildDirectoryChildren_via_entries, buildDirectoryChildren_via_entries]
  congr 1
  have : ∀ (l : List ScannedFolder),
      ((l.filter (fun sf => !isChapterIndexed sf)).map
        (fun sf => dirChildEntry sf locale parentSlug)).flatten
      = (l.map (fun sf => dirChildEntry sf locale parentSlug)).flatten := by
    intro l
    induction l with
    | nil => rfl
    | cons sf l ih =>
      by_cases h : isChapterIndexed sf
      · simp [List.filter_cons, h, ih, dirChildEntry_of_chapter sf locale parentSlug h]
      · simp [List.filter_cons, h, ih]
  exact this folder.subfolders

/-- C5: a directory element with a chapter-kind child always yields the
`DIRECTORY_CONTAINS_CHAPTER` diagnostic, and full derivation builds the
same children array as if the chapter-indexed subfolders were absent
(the offending child is skipped) while an indexed directory folder still
produces its own metadata and the remaining children. -/
theorem C5_directory_chapter_child_flagged_and_skipped
    (fm : RawFrontMatter) (path : CPath) (children : List Element)
    (folder : ScannedFolder) (locale : String) (parentSlug : List String)
    (f : ScannedFile)
    (hchild : ∃ c ∈ children, c.etype = ElementType.chapter)
    (hidx : folder.indexFile = some f)
    (hdir : f.frontmatter.type = "directory") :
    directoryContainsChapterError path ∈
      Element.validate (.mk .directory fm path children)
    ∧ buildDirectoryChildren
        { folder with subfolders :=
            folder.subfolders.filter (fun sf => !isChapterIndexed sf) }
        locale parentSlug
      = buildDirectoryChildren folder locale parentSlug
    ∧ generateFolderArtifacts folder locale parentSlug =
        some (buildMetadata f.frontmatter f.gitMetadata locale (parentSlug ++ [folder.name]),
          buildMetadata f.frontmatter f.gitMetadata locale (parentSlug ++ [folder.name]),
          FractionalIndexSorter.sort
            (buildDirectoryChildren folder locale (parentSlug ++ [folder.name]))) := by
  refine ⟨?_, buildDirectoryChildren_skips_chapters folder locale parentSlug, ?_⟩
  · rw [Element.validate]
    have hany : children.any (fun c => c.etype = ElementType.chapter) = true := by
      obtain ⟨c, hc, ht⟩ := hchild
      exact List.any_eq_true.mpr ⟨c, hc, by simp [ht]⟩
    rw [hany]
    simp
  · unfold generateFolderArtifacts
    rw [hidx]
    have : ¬ f.frontmatter.type = "chapter" := by
      rw [hdir]
      decide
    simp [this]

/-- Witness for C5: the directory `2a-guides` with a chapter child
element and, on the derivation side, a scanned chapter subfolder. -/
theorem C5_witness :
    directoryContainsChapterError c5Path ∈ Element.validate c5DirElement
    ∧ buildDirectoryChildren
        { c5Folder with subfolders :=
            c5Folder.subfolders.filter (fun sf => !isChapterIndexed sf) }
        "en-US" []
      = buildDirectoryChildren c5Folder "en-US" []
    ∧ generateFolderArtifacts c5Folder "en-US" [] =
        some (buildMetadata (directoryFm "DIR1" "Guides") gitX "en-US" ["2a-guides"],
          buildMetadata (directoryFm "DIR1" "Guides") gitX "en-US" ["2a-guides"],
          FractionalIndexSorter.sort
            (buildDirectoryChildren c5Folder "en-US" ["2a-guides"])) := by
  have h := C5_directory_chapter_child_flagged_and_skipped dirRawFm c5Path
    [Element.mk .chapter chapterRawFm c5ChildPath []] c5Folder "en-US" []
    { relativePath := "en-US/2a-guides/index.md"
      frontmatter := directoryFm "DIR1" "Guides"
      gitMetadata := gitX }
    ⟨Element.mk .chapter chapterRawFm c5ChildPath [], by simp, rfl⟩ rfl rfl
  exact ⟨h.1, h.2.1, h.2.2⟩

/-! ## Duplicate-identifier diagnostics -/

theorem keepFirst_aux_mem (l : List String) (acc : List String) (x : String) :
    (x ∈ l.foldl (fun a y => if y ∈ a then a else a ++ [y]) acc) ↔
      x ∈ acc ∨ x ∈ l := by
  induction l generalizing acc with
  | nil => simp
  | cons y l ih =>
    simp only [List.foldl_cons]
    by_cases hy : y ∈ acc
    · rw [if_pos hy, ih]
      constructor
      · rintro (h | h)
        · exact Or.inl h
        · exact Or.inr (List.mem_cons_of_mem y h)
      · rintro (h | h)
        · exact Or.inl h
        · rcases List.mem_cons.mp h with rfl | h
          · exact Or.inl hy
          · exact Or.inr h
    · rw [if_neg hy, ih]
      simp only [List.mem_append, List.mem_singleton, List.mem_cons]
      tauto

theorem keepFirst_mem (l : List String) (x : String) :
    x ∈ keepFirst l ↔ x ∈ l := by
  unfold keepFirst
  rw [keepFirst_aux_mem]
  simp

theorem keepFirst_aux_nodup (l : List String) (acc : List String)
    (h : acc.Nodup) :
    (l.foldl (fun a y => if y ∈ a then a else a ++ [y]) acc).Nodup := by
  induction l generalizing acc with
  | nil => simpa
  | cons y l ih =>
    simp only [List.foldl_cons]
    by_cases hy : y ∈ acc
    · rw [if_pos hy]
      exact ih acc h
    · rw [if_neg hy]
      refine ih (acc ++ [y]) ?_
      simp [List.nodup_append, h, hy]

theorem keepFirst_nodup (l : List String) : (keepFirst l).Nodup :=
  keepFirst_aux_nodup l [] List.nodup_nil

theorem keepFirst_snoc (l : List String) (x : String) :
    keepFirst (l ++ [x]) =
      if x ∈ keepFirst l then keepFirst l else keepFirst l ++ [x] := by
  unfold keepFirst
  rw [List.foldl_append]
  rfl

theorem pathsOf_snoc (l : List Element) (e : Element) (κ : String) :
    pathsOf (l ++ [e]) κ =
      pathsOf l κ ++ (if idOf e = κ then [e.path.pathString] else []) := by
  unfold pathsOf
  rw [List.filter_append, List.map_append]
  congr 1
  by_cases h : idOf e = κ <;> simp [List.filter_cons, h]

theorem pathsOf_eq_nil (l : List Element) (κ : String)
    (h : κ ∉ l.map idOf) :
    pathsOf l κ = [] := by
  unfold pathsOf
  have : l.filter (fun e => decide (idOf e = κ)) = [] := by
    rw [List.filter_eq_nil_iff]
    intro e he
    simp only [decide_eq_true_eq]
    intro hq
    exact h (List.mem_map.mpr ⟨e, he, hq⟩)
  rw [this]
  rfl

theorem dupmap_noop (M : List (String × List String)) (κ p : String)
    (h : κ ∉ M.map Prod.fst) :
    M.map (fun kv => if kv.1 = κ then (kv.1, kv.2 ++ [p]) else kv) = M := by
  induction M with
  | nil => rfl
  | cons kv M ih =>
    obtain ⟨k, ps⟩ := kv
    have hk : ¬ (k = κ) := by
      intro hk
      subst hk
      exact h (by simp)
    have h2 : κ ∉ M.map Prod.fst := by
      intro hm
      exact h (by simp [hm])
    simp only [List.map_cons]
    rw [ih h2]
    congr 1
    simp [hk]

theorem insertIdPath_of_not_mem (M : List (String × List String)) (κ p : String)
    (h : κ ∉ M.map Prod.fst) :
    insertIdPath M κ p = M ++ [(κ, [p])] := by
  induction M with
  | nil => rfl
  | cons kv M ih =>
    obtain ⟨k, ps⟩ := kv
    have h1 : k ≠ κ := by
      intro hk
      subst hk
      exact h (by simp)
    have h2 : κ ∉ M.map Prod.fst := by
      intro hm
      exact h (by simp [hm])
    unfold insertIdPath
    rw [if_neg h1, ih h2]
    simp

theorem insertIdPath_of_mem_nodup (M : List (String × List String)) (κ p : String)
    (hnd : (M.map Prod.fst).Nodup) (h : κ ∈ M.map Prod.fst) :
    insertIdPath M κ p =
      M.map (fun kv => if kv.1 = κ then (kv.1, kv.2 ++ [p]) else kv) := by
  induction M with
  | nil => simp at h
  | cons kv M ih =>
    obtain ⟨k, ps⟩ := kv
    rw [List.map_cons] at hnd h
    by_cases hk : k = κ
    · subst hk
      have hnotin : k ∉ M.map Prod.fst := (List.nodup_cons.mp hnd).1
      unfold insertIdPath
      rw [if_pos rfl, List.map_cons, dupmap_noop M k p hnotin]
      simp
    · have h' : κ ∈ M.map Prod.fst := by
        rcases List.mem_cons.mp h with hq | hq
        · exact absurd hq.symm hk
        · exact hq
      have hnd' : (M.map Prod.fst).Nodup := (List.nodup_cons.mp hnd).2
      unfold insertIdPath
      rw [if_neg hk, ih hnd' h']
      simp [hk]

theorem idMapOf_eq (elements : List Element) :
    elements.foldl
        (fun mm e => insertIdPath mm (idOf e) e.path.pathString) [] =
      (keepFirst (elements.map idOf)).map
        (fun κ => (κ, pathsOf elements κ)) := by
  induction elements using List.reverseRecOn with
  | nil => rfl
  | append_singleton l e ih =>
    rw [List.foldl_append, List.foldl_cons, List.foldl_nil, ih,
      List.map_append, List.map_singleton, keepFirst_snoc]
    have hkeys : ((keepFirst (l.map idOf)).map
        (fun κ => (κ, pathsOf l κ))).map Prod.fst = keepFirst (l.map idOf) := by
      rw [List.map_map]
      have hcomp : (Prod.fst ∘ fun κ => (κ, pathsOf l κ)) = fun κ : String => κ := by
        funext κ
        rfl
      rw [hcomp]
      simp
    by_cases hmem : idOf e ∈ keepFirst (l.map idOf)
    · rw [if_pos hmem]
      rw [insertIdPath_of_mem_nodup _ _ _
        (by rw [hkeys]; exact keepFirst_nodup _)
        (by rw [hkeys]; exact hmem)]
      rw [List.map_map]
      apply List.map_congr_left
      intro κ hκ
      simp only [Function.comp_apply]
      by_cases hq : κ = idOf e
      · subst hq
        rw [if_pos rfl, pathsOf_snoc]
        simp
      · rw [if_neg hq, pathsOf_snoc]
        have : ¬ (idOf e = κ) := fun hh => hq hh.symm
        simp [this]
    · rw [if_neg hmem]
      rw [insertIdPath_of_not_mem _ _ _ (by rw [hkeys]; exact hmem)]
      rw [List.map_append, List.map_singleton]
      congr 1
      · apply List.map_congr_left
        intro κ hκ
        have hne : ¬ (idOf e = κ) := by
          intro hh
          exact hmem (hh ▸ hκ)
        rw [pathsOf_snoc]
        simp [hne]
      · have hnil : pathsOf l (idOf e) = [] :=
          pathsOf_eq_nil l (idOf e) (fun hm => hmem ((keepFirst_mem _ _).mpr hm))
        rw [pathsOf_snoc, hnil]
        simp

theorem collectIdMap_ok (elements : List Element) :
    ∀ (m : List (String × List String)),
      (∀ e ∈ elements, ulidIsValid (idOf e) = true) →
      collectIdMap elements m =
        .ok (elements.foldl
          (fun mm e => insertIdPath mm (idOf e) e.path.pathString) m) := by
  induction elements with
  | nil => intro m _; rfl
  | cons e rest ih =>
    intro m h
    have hv : ulidIsValid (idOf e) = true := h e (by simp)
    have hfrom : ulidFrom e.frontmatter.id = .ok (idOf e) := by
      unfold idOf at hv ⊢
      simp only [ulidFrom]
      rw [if_pos hv]
    unfold collectIdMap
    rw [hfrom, List.foldl_cons]
    exact ih _ (fun x hx => h x (by simp [hx]))

theorem foldl_append_blocks {α : Type} (g : α → List VError) (L : List α) :
    ∀ acc, L.foldl (fun acc x => acc ++ g x) acc = acc ++ (L.map g).flatten := by
  induction L with
  | nil => intro acc; simp
  | cons x L ih =>
    intro acc
    rw [List.foldl_cons, ih]
    simp

/-- C6: with valid identifiers throughout, the duplicate-id scan returns,
for each distinct identifier in first-occurrence order, one diagnostic per
occurrence when the identifier occurs more than once (each carrying the
full colliding-path list) and none when it occurs once; every occurrence
of a duplicated identifier therefore contributes its own diagnostic. -/
theorem C6_duplicate_id_one_diagnostic_per_occurrence (elements : List Element)
    (h : ∀ e ∈ elements, ulidIsValid (idOf e) = true) :
    DuplicateIdValidator.validateBatch elements =
      .ok ((keepFirst (elements.map idOf)).map
        (fun κ =>
          if (pathsOf elements κ).length > 1 then
            (pathsOf elements κ).map (mkDupError κ (pathsOf elements κ))
          else [])).flatten
    ∧ ∀ κ ∈ elements.map idOf, 2 ≤ (pathsOf elements κ).length →
        ∀ p ∈ pathsOf elements κ,
          mkDupError κ (pathsOf elements κ) p ∈
            ((keepFirst (elements.map idOf)).map
              (fun κ =>
                if (pathsOf elements κ).length > 1 then
                  (pathsOf elements κ).map (mkDupError κ (pathsOf elements κ))
                else [])).flatten := by
  constructor
  · have hfun : (fun (acc : List VError) (entry : String × List String) =>
        if entry.2.length > 1 then acc ++ entry.2.map (mkDupError entry.1 entry.2)
        else acc)
        = fun acc entry => acc ++
            (if entry.2.length > 1 then entry.2.map (mkDupError entry.1 entry.2)
             else []) := by
      funext acc entry
      by_cases hlen : entry.2.length > 1 <;> simp [hlen]
    have h1 : DuplicateIdValidator.validateBatch elements =
        .ok (((keepFirst (elements.map idOf)).map
            (fun κ => (κ, pathsOf elements κ))).foldl
          (fun acc entry =>
            if entry.2.length > 1 then acc ++ entry.2.map (mkDupError entry.1 entry.2)
            else acc)
          []) := by
      unfold DuplicateIdValidator.validateBatch
      rw [collectIdMap_ok elements [] h, idMapOf_eq]
    rw [h1, hfun, foldl_append_blocks, List.map_map]
    rfl
  · intro κ hκ hlen p hp
    have hblock : (if (pathsOf elements κ).length > 1 then
        (pathsOf elements κ).map (mkDupError κ (pathsOf elements κ))
      else []) = (pathsOf elements κ).map (mkDupError κ (pathsOf elements κ)) := by
      rw [if_pos (by omega)]
    apply List.mem_flatten.mpr
    refine ⟨(pathsOf elements κ).map (mkDupError κ (pathsOf elements κ)), ?_, ?_⟩
    · rw [← hblock]
      exact List.mem_map.mpr ⟨κ, (keepFirst_mem _ _).mpr hκ, rfl⟩
    · exact List.mem_map.mpr ⟨p, hp, rfl⟩

/-- Witness for C6: elements at different depths and locales sharing one
identifier produce exactly one diagnostic per occurrence, each listing
both colliding paths; the unique third identifier produces none. -/
theorem C6_witness :
    DuplicateIdValidator.validateBatch [e1dup, e2dup, e3uniq] =
      .ok [mkDupError "01ARZ3NDEKTSV4RRFFQ69G5FAV"
            ["en-US", "uk-UA/1a-intro/2b-deep"] "en-US",
          mkDupError "01ARZ3NDEKTSV4RRFFQ69G5FAV"
            ["en-US", "uk-UA/1a-intro/2b-deep"] "uk-UA/1a-intro/2b-deep"] := by
  have h := (C6_duplicate_id_one_diagnostic_per_occurrence [e1dup, e2dup, e3uniq]
    (by decide)).1
  rw [h]
  rfl

/-! ## Validation totality -/

theorem dupValidateBatch_eq (elements : List Element)
    (h : ∀ e ∈ elements, ulidIsValid (idOf e) = true) :
    DuplicateIdValidator.validateBatch elements = .ok (dupDiagnostics elements) := by
  have hfun : (fun (acc : List VError) (entry : String × List String) =>
      if entry.2.length > 1 then acc ++ entry.2.map (mkDupError entry.1 entry.2)
      else acc)
      = fun acc entry => acc ++
          (if entry.2.length > 1 then entry.2.map (mkDupError entry.1 entry.2)
           else []) := by
    funext acc entry
    by_cases hlen : entry.2.length > 1 <;> simp [hlen]
  have h1 : DuplicateIdValidator.validateBatch elements =
      .ok (((keepFirst (elements.map idOf)).map
          (fun κ => (κ, pathsOf elements κ))).foldl
        (fun acc entry =>
          if entry.2.length > 1 then acc ++ entry.2.map (mkDupError entry.1 entry.2)
          else acc)
        []) := by
    unfold DuplicateIdValidator.validateBatch
    rw [collectIdMap_ok elements [] h, idMapOf_eq]
  rw [h1, hfun, foldl_append_blocks, List.map_map]
  rfl

/-- C7 counterexample: a batch holding one element whose frontmatter id is
`"not-a-ulid"` makes the whole validation run throw (the `ULID`
constructor inside the duplicate-id check), instead of returning a
diagnostic list. -/
theorem C7_counterexample :
    ValidationPipeline.validateBatch [badIdElement] =
      .error "Invalid ULID format: \"not-a-ulid\". Expected 26 base32 characters" := by
  rfl

/-- C7 as amended: when every element's frontmatter id is a valid
26-character ULID, the pipeline runs to completion and returns the
concatenated diagnostics of all four validators. -/
theorem C7_validation_total_for_valid_ids (elements : List Element)
    (h : ∀ e ∈ elements, ulidIsValid (idOf e) = true) :
    ValidationPipeline.validateBatch elements =
      .ok (frontmatterValidateBatch elements ++ fileNameValidateBatch elements
        ++ hierarchyValidateBatch elements ++ dupDiagnostics elements) := by
  have hdup := dupValidateBatch_eq elements h
  simp only [ValidationPipeline.validateBatch]
  rw [hdup]

/-- Witness for C7: a singleton batch with a valid ULID. -/
theorem C7_witness :
    ValidationPipeline.validateBatch [e3uniq] =
      .ok (frontmatterValidateBatch [e3uniq] ++ fileNameValidateBatch [e3uniq]
        ++ hierarchyValidateBatch [e3uniq] ++ dupDiagnostics [e3uniq]) :=
  C7_validation_total_for_valid_ids [e3uniq] (by decide)

/-- C10: in one validate pass over a locale element the missing-title
diagnostic appears exactly twice when the title is missing, empty or not
a string (and zero times otherwise), and the description wrong-type
diagnostic appears exactly twice when a truthy non-string description is
present (zero times otherwise) — the two checks are duplicated in
`validateLocale`. -/
theorem C10_locale_title_description_checks_duplicated
    (fm : RawFrontMatter) (path : CPath) (children : List Element) :
    ((frontmatterValidate (.mk .locale fm path children)).count
        (fmCreateError "MISSING_REQUIRED_FIELD" "Locale must have a title"
          path.pathList)
      = if titleBad fm then 2 else 0)
    ∧ ((frontmatterValidate (.mk .locale fm path children)).count
        (fmCreateError "INVALID_FIELD_TYPE" "Locale description must be a string"
          path.pathList)
      = if descBad fm then 2 else 0) := by
  have hne1 : ∀ m : String,
      (fmCreateError "INVALID_FRONTMATTER_TYPE" m path.pathList
        = fmCreateError "MISSING_REQUIRED_FIELD" "Locale must have a title"
            path.pathList) = False := by
    intro m
    simp [fmCreateError]
  have hne2 : ∀ m : String,
      (fmCreateError "INVALID_FRONTMATTER_TYPE" m path.pathList
        = fmCreateError "INVALID_FIELD_TYPE" "Locale description must be a string"
            path.pathList) = False := by
    intro m
    simp [fmCreateError]
  have hne3 : (fmCreateError "INVALID_FIELD_TYPE" "Locale description must be a string"
        path.pathList
      = fmCreateError "MISSING_REQUIRED_FIELD" "Locale must have a title"
          path.pathList) = False := by
    simp [fmCreateError]
  have hne4 : (fmCreateError "MISSING_REQUIRED_FIELD" "Locale must have a title"
        path.pathList
      = fmCreateError "INVALID_FIELD_TYPE" "Locale description must be a string"
          path.pathList) = False := by
    simp [fmCreateError]
  have hfm : frontmatterValidate (.mk .locale fm path children)
      = validateLocaleFm fm path.pathList := rfl
  rw [hfm]
  unfold validateLocaleFm
  by_cases h1 : fm.type = FmValue.str "locale" <;>
    by_cases h2 : titleBad fm = true <;>
      by_cases h3 : descBad fm = true <;>
        simp [h1, h2, h3, List.count_append, List.count_cons, List.count_nil,
          hne1, hne2, hne3, hne4]

/-- Witness for C1's conditional clauses, via transitivity at
`1aa < 1a < 1b`. -/
theorem C1_witness :
    FractionalIndex.compare ⟨1, "aa"⟩ ⟨1, "b"⟩ < 0 :=
  C1_fractionalIndex_compare_total_order.2.2.2.1 ⟨1, "aa"⟩ ⟨1, "a"⟩ ⟨1, "b"⟩
    (by decide) (by decide)
